import Mathlib

/-!
Verification of `src/mongo_utils.py`.

The Python module is a thin convenience layer over a MongoDB driver.  We give a
shallow embedding of its observable behaviour:

* Python strings are modelled by Lean `String`, with the relevant operations
  (`startswith`, slicing, `split(x)[0]`, the `in` substring test) implemented
  faithfully on the underlying character list `String.data`.
* `get_mongo_client` is modelled as the connection URI it hands to the driver
  (the `MongoClient` construction itself is external I/O).
* The four façades (`fetch_documents`, `insert_documents`, `update_documents`,
  `delete_documents`) are modelled by the driver calls they issue.  The driver
  semantics of `find`, `sort` and `limit` are abstract parameters; the write
  façades return the trace of store calls together with the informational
  messages printed before any driver reply is needed.  A Python `KeyError` is
  modelled by `Except.error`.
-/

/-- Python `hay.startswith(needle)` on character lists: `hasPre needle hay`
is `true` iff `needle` is an initial segment of `hay`.  (Recursion is on the
needle first, so that a fully matched concrete needle reduces even when the
tail of the haystack is symbolic.) -/
def hasPre : List Char → List Char → Bool
  | [], _ => true
  | a :: as, s =>
    match s with
    | [] => false
    | b :: bs => a == b && hasPre as bs

/-- Python `needle in hay` substring test on character lists. -/
def hasSub (needle : List Char) : List Char → Bool
  | [] => needle.isEmpty
  | b :: t => hasPre needle (b :: t) || hasSub needle t

/-- The specification-level substring relation: `needle` occurs contiguously
somewhere inside `hay`. -/
def SubstrOf (needle hay : List Char) : Prop :=
  ∃ s t, s ++ needle ++ t = hay

/-- The secure-scheme marker stripped by `get_mongo_client` (line 65). -/
def SRV_SCHEME : String := "mongodb+srv://"

/-- Python `s.split(c)[0]`: the longest initial segment of `s` before the
first occurrence of the character `c` (the whole string when `c` is absent). -/
def splitHead (s : String) (c : Char) : String :=
  ⟨s.data.takeWhile (fun ch => ch != c)⟩

/-- Lines 65–66 of `get_mongo_client`: strip the `mongodb+srv://` scheme
marker when the host starts with it, otherwise leave the host unchanged. -/
def stripSrvScheme (host : String) : String :=
  if hasPre SRV_SCHEME.data host.data then ⟨host.data.drop SRV_SCHEME.length⟩ else host

/-- Lines 64–68 of `get_mongo_client`: the host-cleaning pipeline — strip the
scheme marker, then `split("/")[0]`, then `split("?")[0]`. -/
def cleanHost (host : String) : String :=
  splitHead (splitHead (stripSrvScheme host) '/') '?'

/-- Line 70: the `"srv" in host` test, performed on the ORIGINAL host string. -/
def srvIn (host : String) : Bool :=
  hasSub "srv".data host.data

/-- Lines 70–71: the connection URI `get_mongo_client` passes to the driver. -/
def get_mongo_client (host username password : String) : String :=
  if srvIn host then
    "mongodb+srv://" ++ username ++ ":" ++ password ++ "@" ++ cleanHost host
  else
    "mongodb://" ++ username ++ ":" ++ password ++ "@" ++ cleanHost host

lemma hasPre_iff (pre : List Char) : ∀ s : List Char, hasPre pre s = true ↔ ∃ t, pre ++ t = s := by
  induction pre with
  | nil =>
    intro s
    simp [hasPre]
  | cons a as ih =>
    intro s
    cases s with
    | nil => simp [hasPre]
    | cons b bs =>
      simp only [hasPre, Bool.and_eq_true, beq_iff_eq, ih bs, List.cons_append]
      constructor
      · rintro ⟨hab, t, ht⟩
        exact ⟨t, by rw [hab, ht]⟩
      · rintro ⟨t, ht⟩
        injection ht with h1 h2
        exact ⟨h1, t, h2⟩

lemma hasSub_iff (needle : List Char) :
    ∀ hay : List Char, hasSub needle hay = true ↔ SubstrOf needle hay := by
  intro hay
  induction hay with
  | nil =>
    simp only [hasSub, List.isEmpty_iff, SubstrOf]
    constructor
    · rintro rfl
      exact ⟨[], [], rfl⟩
    · rintro ⟨s, t, h⟩
      rcases List.append_eq_nil.mp h with ⟨h1, h2⟩
      rcases List.append_eq_nil.mp h1 with ⟨-, h3⟩
      exact h3
  | cons b t ih =>
    simp only [hasSub, Bool.or_eq_true, hasPre_iff, ih, SubstrOf]
    constructor
    · rintro (⟨u, hu⟩ | ⟨s, u, hu⟩)
      · exact ⟨[], u, by simpa using hu⟩
      · exact ⟨b :: s, u, by simp [hu]⟩
    · rintro ⟨s, u, hu⟩
      cases s with
      | nil =>
        left
        exact ⟨u, by simpa using hu⟩
      | cons c cs =>
        right
        rw [List.cons_append, List.cons_append] at hu
        injection hu with h1 h2
        exact ⟨cs, u, h2⟩

lemma mem_of_mem_takeWhile {q : Char → Bool} {x : Char} {l : List Char}
    (hx : x ∈ l.takeWhile q) : x ∈ l := by
  have h := List.takeWhile_append_dropWhile q l
  rw [← h]
  exact List.mem_append_left _ hx

/-- The sort step of `fetch_documents` (lines 115–116): Python `if sort:` is a
truthiness test, so the cursor is re-sorted only when the sort spec is present
AND non-empty; the driver's sort semantics is the abstract `sortSem`. -/
def sortStage {δ : Type} (sortSem : List (String × Int) → List δ → List δ)
    (sort : Option (List (String × Int))) (cursor : List δ) : List δ :=
  match sort with
  | none => cursor
  | some s => if s = [] then cursor else sortSem s cursor

/-- The limit step of `fetch_documents` (lines 117–118): Python `if limit:` is
a truthiness test, so the limit is applied only when present AND non-zero; the
driver's limit semantics is the abstract `limitSem`. -/
def limitStage {δ : Type} (limitSem : Int → List δ → List δ)
    (limit : Option Int) (cursor : List δ) : List δ :=
  match limit with
  | none => cursor
  | some n => if n = 0 then cursor else limitSem n cursor

/-- `fetch_documents` (lines 108–120).  A filter is an association list of
string keys (so `{}` is `[]`); the projection type and the document type are
abstract.  The driver primitives `find`, `sortSem`, `limitSem` are parameters:
the façade only decides whether and with which arguments to invoke them.  The
result is the fully materialised `list(cursor)`. -/
def fetch_documents {υ π δ : Type}
    (find : List (String × υ) → Option π → List δ)
    (sortSem : List (String × Int) → List δ → List δ)
    (limitSem : Int → List δ → List δ)
    (query : Option (List (String × υ))) (projection : Option π)
    (sort : Option (List (String × Int))) (limit : Option Int) : List δ :=
  let q := match query with
    | none => []
    | some qq => qq
  limitStage limitSem limit (sortStage sortSem sort (find q projection))

/-- A store call issued by `insert_documents`: either the single-document path
`insert_one` or the batch path `insert_many`. -/
inductive InsertCall (δ : Type) where
  | insertOne (doc : δ)
  | insertMany (docs : List δ)
deriving DecidableEq

/-- `insert_documents` (lines 143–155), modelled as the list of store calls it
issues together with the messages it prints.  Empty input: no store call, an
informational message, normal return.  Exactly one document: `insert_one`.
More than one: `insert_many` on the list as given. -/
def insert_documents {δ : Type} (collection_name : String) (documents : List δ) :
    List (InsertCall δ) × List String :=
  match documents with
  | [] => ([], ["No documents to insert."])
  | [d] => ([InsertCall.insertOne d], ["Inserted 1 document into " ++ collection_name])
  | d₁ :: d₂ :: ds =>
    ([InsertCall.insertMany (d₁ :: d₂ :: ds)],
     ["Inserted " ++ toString (d₁ :: d₂ :: ds).length ++ " documents into " ++ collection_name])

/-- Python `d.get(k)` / `d[k]` lookup on a dictionary modelled as an
association list (first binding wins); `none` models a missing key. -/
def dictGet {α : Type} (d : List (String × α)) (k : String) : Option α :=
  (d.find? (fun p => p.1 == k)).map (fun p => p.2)

/-- One `UpdateOne(filter, update, upsert=upsert)` driver operation
(line 186). -/
structure UpdateOneOp (σ : Type) where
  filter : σ
  update : σ
  upsert : Bool
deriving DecidableEq

/-- A store call issued by `update_documents`: a single `bulk_write` carrying
the whole batch of operations. -/
inductive BulkCall (σ : Type) where
  | bulkWrite (ops : List (UpdateOneOp σ))
deriving DecidableEq

/-- Build one `UpdateOne` operation from one update specification
(`UpdateOne(u["filter"], u["update"], upsert=upsert)`, line 186).  A missing
key raises `KeyError` in Python, modelled as `Except.error`; the `"filter"`
lookup happens first, as in the source expression. -/
def mkUpdateOne {σ : Type} (upsert : Bool) (u : List (String × σ)) :
    Except String (UpdateOneOp σ) :=
  match dictGet u "filter" with
  | none => Except.error "KeyError: filter"
  | some f =>
    match dictGet u "update" with
    | none => Except.error "KeyError: update"
    | some m => Except.ok { filter := f, update := m, upsert := upsert }

/-- The list comprehension of line 186, left to right; the first `KeyError`
aborts the whole call before any store call is made. -/
def buildOps {σ : Type} (upsert : Bool) :
    List (List (String × σ)) → Except String (List (UpdateOneOp σ))
  | [] => Except.ok []
  | u :: us =>
    match mkUpdateOne upsert u with
    | Except.error e => Except.error e
    | Except.ok op =>
      match buildOps upsert us with
      | Except.error e => Except.error e
      | Except.ok ops => Except.ok (op :: ops)

/-- `update_documents` (lines 179–188), modelled as the store calls issued and
the messages printed before any driver reply is needed (the final summary
print interpolates counts from the driver's reply, hence is not part of the
pure model).  Empty input: no store call, an informational message, normal
return.  Otherwise: one `bulk_write` of all translated operations. -/
def update_documents {σ : Type} (collection_name : String)
    (updates : List (List (String × σ))) (upsert : Bool) :
    Except String (List (BulkCall σ) × List String) :=
  match updates with
  | [] => Except.ok ([], ["No updates to perform."])
  | u :: us =>
    match buildOps upsert (u :: us) with
    | Except.error e => Except.error e
    | Except.ok ops => Except.ok ([BulkCall.bulkWrite ops], [])

/-- A store call issued by `delete_documents`: one `delete_many`. -/
inductive DeleteCall (υ : Type) where
  | deleteMany (query : List (String × υ))
deriving DecidableEq

/-- `delete_documents` (lines 191–203), modelled as the store calls it issues:
unconditionally one `delete_many(query)` — there is no empty-input guard. -/
def delete_documents {υ : Type} (collection_name : String)
    (query : List (String × υ)) : List (DeleteCall υ) :=
  [DeleteCall.deleteMany query]

/-- Claim C1: the connection builder selects the secure-scheme URI form
`mongodb+srv://` if and only if the substring `"srv"` occurs anywhere in the
original (un-normalized) host string, otherwise the standard form
`mongodb://`; in particular the bare hostname `"srv-backup.example.com"`,
which has no scheme marker, still selects the secure-scheme form. -/
theorem C1_scheme_selection (h u p : String) :
    (SubstrOf "srv".data h.data →
      get_mongo_client h u p = "mongodb+srv://" ++ u ++ ":" ++ p ++ "@" ++ cleanHost h) ∧
    (¬ SubstrOf "srv".data h.data →
      get_mongo_client h u p = "mongodb://" ++ u ++ ":" ++ p ++ "@" ++ cleanHost h) ∧
    get_mongo_client "srv-backup.example.com" u p
      = "mongodb+srv://" ++ u ++ ":" ++ p ++ "@" ++ "srv-backup.example.com" := by
  refine ⟨?_, ?_, ?_⟩
  · intro hs
    have hb : srvIn h = true := (hasSub_iff _ _).mpr hs
    simp [get_mongo_client, hb]
  · intro hs
    have hb : srvIn h = false := by
      cases hcase : srvIn h
      · rfl
      · exact absurd ((hasSub_iff _ _).mp hcase) hs
    simp [get_mongo_client, hb]
  · rfl

/-- Witness for C1 at the concrete host of the claim: `"srv"` occurs in
`"srv-backup.example.com"`, so the secure-scheme form is selected. -/
theorem C1_scheme_selection_witness :
    get_mongo_client "srv-backup.example.com" "user" "pw"
      = "mongodb+srv://" ++ "user" ++ ":" ++ "pw" ++ "@" ++ cleanHost "srv-backup.example.com" :=
  (C1_scheme_selection "srv-backup.example.com" "user" "pw").1
    ⟨[], "-backup.example.com".data, by decide⟩

/-- Claim C2: the connection builder normalizes the host by stripping a
leading `mongodb+srv://` marker if present, then truncating at the first `/`
and at the first `?`, and embeds `username:password@` before the resulting
bare host in the produced URI; in particular
`"mongodb+srv://host.example.com/db?retryWrites=true"` yields the bare host
`"host.example.com"`. -/
theorem C2_host_normalization (u p : String) :
    (∀ rest : String, stripSrvScheme ("mongodb+srv://" ++ rest) = rest) ∧
    (∀ h : String, hasPre SRV_SCHEME.data h.data = false → stripSrvScheme h = h) ∧
    (∀ h : String, (cleanHost h).data
      = ((stripSrvScheme h).data.takeWhile (fun c => c != '/')).takeWhile (fun c => c != '?')) ∧
    (∀ h : String, (∃ t, (cleanHost h).data ++ t = (stripSrvScheme h).data) ∧
      '/' ∉ (cleanHost h).data ∧ '?' ∉ (cleanHost h).data) ∧
    (∀ h : String, ∃ scheme,
      (scheme = "mongodb+srv://" ∨ scheme = "mongodb://") ∧
      get_mongo_client h u p = scheme ++ u ++ ":" ++ p ++ "@" ++ cleanHost h) ∧
    cleanHost "mongodb+srv://host.example.com/db?retryWrites=true" = "host.example.com" ∧
    get_mongo_client "mongodb+srv://host.example.com/db?retryWrites=true" u p
      = "mongodb+srv://" ++ u ++ ":" ++ p ++ "@" ++ "host.example.com" := by
  refine ⟨?_, ?_, ?_, ?_, ?_, ?_, ?_⟩
  · intro rest
    rfl
  · intro h hfalse
    simp [stripSrvScheme, hfalse]
  · intro h
    rfl
  · intro h
    refine ⟨?_, ?_, ?_⟩
    · refine ⟨((stripSrvScheme h).data.takeWhile (fun c => c != '/')).dropWhile (fun c => c != '?')
        ++ (stripSrvScheme h).data.dropWhile (fun c => c != '/'), ?_⟩
      show (((stripSrvScheme h).data.takeWhile (fun c => c != '/')).takeWhile (fun c => c != '?'))
        ++ _ = _
      rw [← List.append_assoc, List.takeWhile_append_dropWhile,
        List.takeWhile_append_dropWhile]
    · intro hmem
      have hx := List.mem_takeWhile_imp (mem_of_mem_takeWhile hmem)
      simp at hx
    · intro hmem
      have hx := List.mem_takeWhile_imp hmem
      simp at hx
  · intro h
    cases hcase : srvIn h with
    | true => exact ⟨"mongodb+srv://", Or.inl rfl, by simp [get_mongo_client, hcase]⟩
    | false => exact ⟨"mongodb://", Or.inr rfl, by simp [get_mongo_client, hcase]⟩
  · rfl
  · rfl

/-- Witness for C2 at concrete hosts: the scheme marker is stripped from the
claim's example input, and a host with no marker is left unchanged. -/
theorem C2_host_normalization_witness :
    stripSrvScheme "plain.example.com" = "plain.example.com" :=
  (C2_host_normalization "u" "p").2.1 "plain.example.com" (by decide)

/-- Claim C10: for a host beginning with the standard-scheme marker
`mongodb://`, the builder does not strip the marker; truncation at the first
`/` then yields `"mongodb:"` as the bare host, so the produced URI embeds the
credentials before `"mongodb:"` rather than before the actual hostname. -/
theorem C10_standard_scheme_mangled (rest u p : String) :
    stripSrvScheme ("mongodb://" ++ rest) = "mongodb://" ++ rest ∧
    cleanHost ("mongodb://" ++ rest) = "mongodb:" ∧
    (∃ scheme, (scheme = "mongodb://" ∨ scheme = "mongodb+srv://") ∧
      get_mongo_client ("mongodb://" ++ rest) u p
        = scheme ++ u ++ ":" ++ p ++ "@" ++ "mongodb:") ∧
    get_mongo_client "mongodb://db.example.com/app" "user" "pw"
      = "mongodb://user:pw@mongodb:" := by
  refine ⟨rfl, rfl, ?_, rfl⟩
  have hclean : cleanHost ("mongodb://" ++ rest) = "mongodb:" := rfl
  cases hcase : srvIn ("mongodb://" ++ rest) with
  | true =>
    refine ⟨"mongodb+srv://", Or.inr rfl, ?_⟩
    simp [get_mongo_client, hcase, hclean]
  | false =>
    refine ⟨"mongodb://", Or.inl rfl, ?_⟩
    simp [get_mongo_client, hcase, hclean]

lemma mkUpdateOne_upsert {σ : Type} {upsert : Bool} {u : List (String × σ)}
    {op : UpdateOneOp σ} (h : mkUpdateOne upsert u = Except.ok op) : op.upsert = upsert := by
  unfold mkUpdateOne at h
  cases hf : dictGet u "filter" with
  | none =>
    rw [hf] at h
    exact Except.noConfusion h
  | some f =>
    rw [hf] at h
    cases hm : dictGet u "update" with
    | none =>
      rw [hm] at h
      exact Except.noConfusion h
    | some m =>
      rw [hm] at h
      injection h with h1
      rw [← h1]

lemma mkUpdateOne_ok_iff {σ : Type} (upsert : Bool) (u : List (String × σ)) :
    (∃ op, mkUpdateOne upsert u = Except.ok op) ↔
      (dictGet u "filter").isSome ∧ (dictGet u "update").isSome := by
  unfold mkUpdateOne
  cases dictGet u "filter" with
  | none =>
    constructor
    · rintro ⟨op, hop⟩
      exact Except.noConfusion hop
    · rintro ⟨h1, -⟩
      exact absurd h1 (by simp)
  | some f =>
    cases dictGet u "update" with
    | none =>
      constructor
      · rintro ⟨op, hop⟩
        exact Except.noConfusion hop
      · rintro ⟨-, h2⟩
        exact absurd h2 (by simp)
    | some m =>
      constructor
      · intro _
        exact ⟨rfl, rfl⟩
      · intro _
        exact ⟨{ filter := f, update := m, upsert := upsert }, rfl⟩

lemma buildOps_ok_forall₂ {σ : Type} {upsert : Bool} :
    ∀ {us : List (List (String × σ))} {ops : List (UpdateOneOp σ)},
      buildOps upsert us = Except.ok ops →
      List.Forall₂ (fun u op => mkUpdateOne upsert u = Except.ok op) us ops := by
  intro us
  induction us with
  | nil =>
    intro ops h
    unfold buildOps at h
    injection h with h1
    rw [← h1]
    exact List.Forall₂.nil
  | cons u us ih =>
    intro ops h
    unfold buildOps at h
    cases hu : mkUpdateOne upsert u with
    | error e =>
      rw [hu] at h
      exact Except.noConfusion h
    | ok op =>
      rw [hu] at h
      cases hrec : buildOps upsert us with
      | error e =>
        rw [hrec] at h
        exact Except.noConfusion h
      | ok ops₀ =>
        rw [hrec] at h
        injection h with h1
        rw [← h1]
        exact List.Forall₂.cons hu (ih hrec)

lemma buildOps_ok_iff {σ : Type} (upsert : Bool) :
    ∀ us : List (List (String × σ)),
      (∃ ops, buildOps upsert us = Except.ok ops) ↔
        ∀ u ∈ us, (dictGet u "filter").isSome ∧ (dictGet u "update").isSome := by
  intro us
  induction us with
  | nil =>
    simp [buildOps]
  | cons u us ih =>
    constructor
    · rintro ⟨ops, hops⟩
      unfold buildOps at hops
      cases hu : mkUpdateOne upsert u with
      | error e =>
        rw [hu] at hops
        exact Except.noConfusion hops
      | ok op =>
        rw [hu] at hops
        cases hrec : buildOps upsert us with
        | error e =>
          rw [hrec] at hops
          exact Except.noConfusion hops
        | ok ops₀ =>
          intro v hv
          rcases List.mem_cons.mp hv with rfl | hv₀
          · exact (mkUpdateOne_ok_iff upsert v).mp ⟨op, hu⟩
          · exact (ih.mp ⟨ops₀, hrec⟩) v hv₀
    · intro hall
      obtain ⟨op, hop⟩ :=
        (mkUpdateOne_ok_iff upsert u).mpr (hall u (List.mem_cons_self u us))
      obtain ⟨ops₀, hops₀⟩ := ih.mpr (fun v hv => hall v (List.mem_cons_of_mem u hv))
      refine ⟨op :: ops₀, ?_⟩
      unfold buildOps
      rw [hop, hops₀]

lemma forall₂_upsert {σ : Type} {upsert : Bool}
    {us : List (List (String × σ))} {ops : List (UpdateOneOp σ)}
    (h : List.Forall₂ (fun u op => mkUpdateOne upsert u = Except.ok op) us ops) :
    ∀ op ∈ ops, op.upsert = upsert := by
  induction h with
  | nil =>
    intro op hop
    exact absurd hop (List.not_mem_nil op)
  | cons hrel htail ih =>
    intro op hop
    rcases List.mem_cons.mp hop with rfl | hop₀
    · exact mkUpdateOne_upsert hrel
    · exact ih op hop₀

/-- Claim C3: a limit of exactly 0 results in no limit being applied (the
fetch behaves exactly as with no limit argument, returning the full result
set), whereas any limit of 1 or more is applied on top of the unlimited
result; the check is on truthiness of the value, not on its presence. -/
theorem C3_limit_truthiness {υ π δ : Type}
    (find : List (String × υ) → Option π → List δ)
    (sortSem : List (String × Int) → List δ → List δ)
    (limitSem : Int → List δ → List δ)
    (query : Option (List (String × υ))) (projection : Option π)
    (sort : Option (List (String × Int))) :
    fetch_documents find sortSem limitSem query projection sort (some 0)
      = fetch_documents find sortSem limitSem query projection sort none ∧
    ∀ n : Int, 1 ≤ n →
      fetch_documents find sortSem limitSem query projection sort (some n)
        = limitSem n (fetch_documents find sortSem limitSem query projection sort none) := by
  constructor
  · rfl
  · intro n hn
    have hne : ¬ n = 0 := by omega
    simp [fetch_documents, limitStage, hne]

/-- Witness for C3: with a concrete three-document cursor and `take` as the
driver's limit semantics, a limit of 2 is applied. -/
theorem C3_limit_truthiness_witness :
    @fetch_documents Nat Nat Nat (fun _ _ => [10, 20, 30]) (fun _ c => c)
        (fun n c => c.take n.toNat) none none none (some 2)
      = (fun (n : Int) (c : List Nat) => c.take n.toNat) 2
          (@fetch_documents Nat Nat Nat (fun _ _ => [10, 20, 30]) (fun _ c => c)
            (fun n c => c.take n.toNat) none none none none) :=
  (@C3_limit_truthiness Nat Nat Nat (fun _ _ => [10, 20, 30]) (fun _ c => c)
    (fun n c => c.take n.toNat) none none none).2 2 (by decide)

/-- Claim C8: an omitted filter (`None`) defaults to the match-all predicate —
the empty mapping is what reaches the driver's `find` — and the return value
is the fully materialised list of the matched documents in cursor order. -/
theorem C8_default_query_matches_all {υ π δ : Type}
    (find : List (String × υ) → Option π → List δ)
    (sortSem : List (String × Int) → List δ → List δ)
    (limitSem : Int → List δ → List δ)
    (projection : Option π) (sort : Option (List (String × Int))) (limit : Option Int) :
    fetch_documents find sortSem limitSem none projection sort limit
      = fetch_documents find sortSem limitSem (some []) projection sort limit ∧
    fetch_documents find sortSem limitSem none projection none none
      = find [] projection :=
  ⟨rfl, rfl⟩

/-- Claim C4: inserting the empty sequence issues no store call, prints an
informational message and returns normally; a one-element sequence uses the
single-document path `insert_one`; a longer sequence uses the batch path
`insert_many` with the documents in their given order. -/
theorem C4_insert_paths {δ : Type} (collection_name : String) (documents : List δ) :
    (documents = [] →
      insert_documents collection_name documents = ([], ["No documents to insert."])) ∧
    (∀ d, documents = [d] →
      insert_documents collection_name documents
        = ([InsertCall.insertOne d], ["Inserted 1 document into " ++ collection_name])) ∧
    (2 ≤ documents.length →
      insert_documents collection_name documents
        = ([InsertCall.insertMany documents],
           ["Inserted " ++ toString documents.length ++ " documents into " ++ collection_name])) := by
  refine ⟨?_, ?_, ?_⟩
  · rintro rfl
    rfl
  · rintro d rfl
    rfl
  · intro hlen
    match documents with
    | [] => simp at hlen
    | [d] => simp at hlen
    | d₁ :: d₂ :: ds => rfl

/-- Witness for C4 at a concrete two-document batch: the batch path is used
and the order is preserved. -/
theorem C4_insert_paths_witness :
    insert_documents "users" [7, 9]
      = ([InsertCall.insertMany [7, 9]], ["Inserted " ++ toString ([7, 9] : List Nat).length
          ++ " documents into " ++ "users"]) :=
  (C4_insert_paths "users" [7, 9]).2.2 (by decide)

/-- Claim C5: for a non-empty sequence of update specifications in which every
entry is well-formed, the façade translates each specification into exactly
one conditional-update operation carrying the caller's upsert flag, and
submits all of them, in the order given, as a single `bulk_write` request. -/
theorem C5_bulk_update {σ : Type} (collection_name : String)
    (updates : List (List (String × σ))) (upsert : Bool)
    (ops : List (UpdateOneOp σ)) (hne : updates ≠ [])
    (hops : buildOps upsert updates = Except.ok ops) :
    update_documents collection_name updates upsert
      = Except.ok ([BulkCall.bulkWrite ops], []) ∧
    List.Forall₂ (fun u op => mkUpdateOne upsert u = Except.ok op) updates ops ∧
    ∀ op ∈ ops, op.upsert = upsert := by
  have hfa := buildOps_ok_forall₂ hops
  refine ⟨?_, hfa, forall₂_upsert hfa⟩
  match updates with
  | [] => exact absurd rfl hne
  | u :: us =>
    simp only [update_documents]
    rw [hops]

/-- Witness for C5 at a concrete singleton batch: one well-formed
specification becomes one operation inside one `bulk_write`. -/
theorem C5_bulk_update_witness :
    update_documents "users" [[("filter", (1 : Nat)), ("update", 2)]] true
      = Except.ok ([BulkCall.bulkWrite
          [{ filter := 1, update := 2, upsert := true }]], []) :=
  (C5_bulk_update "users" [[("filter", (1 : Nat)), ("update", 2)]] true
    [{ filter := 1, update := 2, upsert := true }] (by decide) rfl).1

/-- Claim C6: an update call with an empty sequence of specifications issues
no store call, prints an informational message and returns normally. -/
theorem C6_empty_update_noop {σ : Type} (collection_name : String) (upsert : Bool) :
    update_documents collection_name ([] : List (List (String × σ))) upsert
      = Except.ok ([], ["No updates to perform."]) :=
  rfl

/-- Claim C7: on a non-empty batch, the update façade succeeds exactly when
every entry carries both the `"filter"` key and the `"update"` key — presence
of the two keys is the only validation performed on update specifications. -/
theorem C7_update_validation {σ : Type} (collection_name : String) (upsert : Bool)
    (updates : List (List (String × σ))) (hne : updates ≠ []) :
    (∃ r, update_documents collection_name updates upsert = Except.ok r) ↔
      ∀ u ∈ updates, (dictGet u "filter").isSome ∧ (dictGet u "update").isSome := by
  rw [← buildOps_ok_iff upsert updates]
  match updates with
  | [] => exact absurd rfl hne
  | u :: us =>
    constructor
    · rintro ⟨r, hr⟩
      simp only [update_documents] at hr
      cases hb : buildOps upsert (u :: us) with
      | error e =>
        rw [hb] at hr
        exact Except.noConfusion hr
      | ok ops => exact ⟨ops, rfl⟩
    · rintro ⟨ops, hops⟩
      refine ⟨([BulkCall.bulkWrite ops], []), ?_⟩
      simp only [update_documents]
      rw [hops]

/-- Witness for C7 at a concrete well-formed singleton batch: both keys are
present, so the call succeeds. -/
theorem C7_update_validation_witness :
    ∃ r, update_documents "users" [[("filter", (1 : Nat)), ("update", 2)]] false
      = Except.ok r :=
  (C7_update_validation "users" false [[("filter", (1 : Nat)), ("update", 2)]]
    (by decide)).mpr (by decide)

/-- Claim C9: the delete façade unconditionally issues one `delete_many` store
call for every filter, including the empty match-all filter — unlike
`insert_documents` and `update_documents`, it has no empty-input no-op
guard. -/
theorem C9_delete_unconditional {υ : Type} (collection_name : String)
    (query : List (String × υ)) :
    delete_documents collection_name query = [DeleteCall.deleteMany query] ∧
    delete_documents collection_name ([] : List (String × υ))
      = [DeleteCall.deleteMany []] ∧
    (insert_documents collection_name ([] : List υ)).1 = [] ∧
    update_documents collection_name ([] : List (List (String × υ))) false
      = Except.ok ([], ["No updates to perform."]) :=
  ⟨rfl, rfl, rfl, rfl⟩
